import Mathlib

/-!
Verification development for the VoiceTable application
(pipeline model, guided voice-entry session engine, voice command
interpreter, CSV import).

The TypeScript source is shallowly embedded: each definition below
translates one function (or the relevant fragment of one component) of
the source.  Strings are handled as `String` / `List Char`; JS array
mutation is expressed as pure list transformation; JS sparse-array
holes (`undefined` entries) are modelled with `Option`.
-/

namespace Scan

/-! ### Character and string utilities (JS semantics) -/

/-- Whitespace recognised by JS `String.prototype.trim` (the forms the
application can actually receive from the speech recognizer / inputs). -/
def isWsCh (c : Char) : Bool :=
  c = ' ' || c = '\t' || c = '\n' || c = '\r'

/-- JS `toLowerCase` restricted to the alphabets used by the app
(ASCII Latin and Cyrillic, the two interface languages). -/
def lowerCh (c : Char) : Char :=
  if 'A' ≤ c ∧ c ≤ 'Z' then Char.ofNat (c.toNat + 32)
  else if 0x410 ≤ c.toNat ∧ c.toNat ≤ 0x42F then Char.ofNat (c.toNat + 0x20)
  else if c.toNat = 0x401 then Char.ofNat 0x451
  else c

/-- JS `trim`: drop leading and trailing whitespace. -/
def trimList (l : List Char) : List Char :=
  ((l.dropWhile isWsCh).reverse.dropWhile isWsCh).reverse

/-- `text.trim().toLowerCase()` — the cleaned utterance used throughout
`handleResult` in the GuidedSession component. -/
def cleanList (s : String) : List Char :=
  (trimList s.toList).map lowerCh

/-- `needle` occurs at the very start of `hay`. -/
def leadMatch : List Char → List Char → Bool
  | [], _ => true
  | _ :: _, [] => false
  | n :: ns, h :: hs => n = h && leadMatch ns hs

/-- JS `hay.includes(needle)`: substring containment. -/
def hasSub (hay needle : List Char) : Bool :=
  leadMatch needle hay ||
    match hay with
    | [] => false
    | _ :: hs => hasSub hs needle

/-- JS `s.replace(',', '.')` with a *string* pattern: only the first
comma is replaced. -/
def replaceFirstComma : List Char → List Char
  | [] => []
  | c :: rest => if c = ',' then '.' :: rest else c :: replaceFirstComma rest

/-- Fractional part of the regex `-?\d+(\.\d+)?`: a dot followed by at
least one digit (greedy), else nothing. -/
def fracAt (l : List Char) : List Char :=
  match l with
  | '.' :: rest =>
      let ds := rest.takeWhile Char.isDigit
      if ds = [] then [] else '.' :: ds
  | _ => []

/-- Attempt to match the regex `-?\d+(\.\d+)?` anchored at the head of `l`. -/
def numAt (l : List Char) : Option (List Char) :=
  match l with
  | '-' :: rest =>
      let ds := rest.takeWhile Char.isDigit
      if ds = [] then none
      else some (('-' :: ds) ++ fracAt (rest.dropWhile Char.isDigit))
  | _ =>
      let ds := l.takeWhile Char.isDigit
      if ds = [] then none
      else some (ds ++ fracAt (l.dropWhile Char.isDigit))

/-- JS `norm.match` with the pattern `-?\d+(\.\d+)?`: the leftmost
match of the signed-decimal pattern, if any. -/
def findNum : List Char → Option (List Char)
  | [] => none
  | c :: rest =>
      match numAt (c :: rest) with
      | some m => some m
      | none => findNum rest

/-! ### Guided session engine (GuidedSession component) -/

inductive Lang where
  | en
  | ru
deriving DecidableEq

/-- Localized stop keywords (`stopWords` in `handleResult`). -/
def stopWords : Lang → List String
  | .ru => ["стоп", "выход", "хватит"]
  | .en => ["stop", "exit"]

/-- Localized skip keywords (`nextWords` in `handleResult`). -/
def nextWords : Lang → List String
  | .ru => ["дальше", "пропустить", "скип"]
  | .en => ["skip", "next"]

inductive ExpType where
  | number
  | text
deriving DecidableEq

/-- A pipeline step (`WorkflowStep` in types). -/
structure WorkflowStep where
  id : String
  instruction : String
  targetRowIndex : Nat
  targetColumnId : String
  expectedType : ExpType
deriving DecidableEq

def defaultStep : WorkflowStep :=
  { id := "", instruction := "", targetRowIndex := 0,
    targetColumnId := "", expectedType := .text }

instance : Inhabited WorkflowStep := ⟨defaultStep⟩

/-- The observable effect of one `handleResult` call.  `noOp` is the
empty-utterance early return; `stop` is the `onClose()` branch (the
session terminates, no write); `skip` is the bare `nextStep()` branch
(advance, no write); `write` is `onValueReceived(...)` followed by
`nextStep()` (emit one table write, then advance). -/
inductive Outcome where
  | noOp
  | stop
  | skip
  | write (rowIndex : Nat) (colId : String) (value : String)
deriving DecidableEq

/-- `handleResult` of the GuidedSession component, as a pure function of
the session language, the current step and the recognized text. -/
def handleResult (lang : Lang) (step : WorkflowStep) (text : String) : Outcome :=
  let cleanText := cleanList text
  if cleanText = [] then .noOp
  else if (stopWords lang).any (fun w => hasSub cleanText w.toList) then .stop
  else if (nextWords lang).any (fun w => hasSub cleanText w.toList) then .skip
  else
    let value :=
      if step.expectedType = .number then
        match findNum (replaceFirstComma cleanText) with
        | some m => m
        | none => cleanText
      else cleanText
    .write step.targetRowIndex step.targetColumnId (String.mk value)

/-! ### Pipeline edit operations (WorkflowWizard component) -/

/-- `Math.min(...rows)` for the nonempty list of selected rows. -/
def listMinD (l : List Nat) : Nat := l.foldr min (l.headD 0)

/-- `Math.max(...rows)` for the nonempty list of selected rows. -/
def listMaxD (l : List Nat) : Nat := l.foldr max (l.headD 0)

/-- `duplicateSelected` of the WorkflowWizard component.  The selection
`Set` is embedded as a duplicate-free `List Nat` in insertion order;
`Array.from(selectedIndices).sort((a, b) => a - b)` is
`List.insertionSort (· ≤ ·)`.  The two source maps (materialize the
selected steps, then build their modified copies) are fused so that the
fresh id (`copy_` + timestamp + random in the source, nondeterministic
but never colliding) can be supplied by the `newId` parameter indexed
by the original position.  The JS `(maxRow - minRow) + 1 || 1` floor is
the `if offset0 = 0` branch. -/
def duplicateSelected (steps : List WorkflowStep) (sel : List Nat)
    (newId : Nat → String) : List WorkflowStep :=
  if sel = [] then steps
  else
    let indices := sel.insertionSort (· ≤ ·)
    let selectedSteps := indices.map (fun i => steps.getD i defaultStep)
    let rows := selectedSteps.map (fun s => s.targetRowIndex)
    let minRow := listMinD rows
    let maxRow := listMaxD rows
    let offset0 := (maxRow - minRow) + 1
    let offset := if offset0 = 0 then 1 else offset0
    let newSteps := indices.map (fun i =>
      { steps.getD i defaultStep with
          id := newId i,
          targetRowIndex := (steps.getD i defaultStep).targetRowIndex + offset })
    steps ++ newSteps

/-- The reorder performed by `onDrop`: splice the dragged step out at
`fromIndex`, then splice it back in at `toIndex`.  The `min` clamp is
JS `splice`'s clamping of the start offset to the array length; the
component only ever calls this with a valid dragged index. -/
def reorderStep (steps : List WorkflowStep) (fromIndex toIndex : Nat) :
    List WorkflowStep :=
  let movedItem := steps.getD fromIndex defaultStep
  let rest := steps.eraseIdx fromIndex
  rest.insertIdx (min toIndex rest.length) movedItem

/-- Numeric value of a nonempty string of decimal digits. -/
def digitsToNat (l : List Char) : Nat :=
  l.foldl (fun acc c => acc * 10 + (c.toNat - '0'.toNat)) 0

/-- The maximal leading digit run of `l`, as a number; `none` if `l`
does not start with a digit. -/
def leadDigits (l : List Char) : Option Nat :=
  let ds := l.takeWhile Char.isDigit
  if ds = [] then none else some (digitsToNat ds)

/-- JS `parseInt(s)` (radix 10): skip leading whitespace, optional
sign, maximal digit run; `none` models `NaN`. -/
def parseIntJS (s : String) : Option Int :=
  match s.toList.dropWhile isWsCh with
  | '-' :: rest => (leadDigits rest).map (fun n => -(n : Int))
  | '+' :: rest => (leadDigits rest).map (fun n => (n : Int))
  | l => (leadDigits l).map (fun n => (n : Int))

/-- The row conversion inside `saveStepEdit`:
`isNaN(parsedRow) ? 0 : Math.max(0, parsedRow - 1)`. -/
def editRowToIndex (editRowIndex : String) : Nat :=
  match parseIntJS editRowIndex with
  | none => 0
  | some parsedRow => (max 0 (parsedRow - 1)).toNat

/-- `saveStepEdit` of the WorkflowWizard component: overwrite the step
at `index` with the edited instruction, the 1-based row string
converted to a 0-based index, and the chosen column.  The component
always calls it with an in-range index (the edit UI exists only for
rendered steps). -/
def saveStepEdit (steps : List WorkflowStep) (index : Nat)
    (editInstruction editRowIndex editColumnId : String) : List WorkflowStep :=
  steps.set index
    { steps.getD index defaultStep with
        instruction := editInstruction,
        targetRowIndex := editRowToIndex editRowIndex,
        targetColumnId := editColumnId }

/-! ### Table model -/

/-- A cell value (`string | number | boolean | null` in types).  A JS
number is carried as its canonical decimal rendering `vNum s`, which
determines it uniquely. -/
inductive Val where
  | vStr (s : String)
  | vNum (s : String)
  | vBool (b : Bool)
  | vNull
deriving DecidableEq

/-- A row object (`Cell` in types): a finite mapping from column id to
value, embedded as an association list read through `cellGet`. -/
abbrev CellRow := List (String × Val)

/-- Field read on a row object: first binding wins. -/
def cellGet (c : CellRow) (k : String) : Option Val :=
  match c with
  | [] => none
  | (k2, v) :: rest => if k2 = k then some v else cellGet rest k

/-- JS object spread `{ ...base, ...upd }` under the `cellGet` reading:
a key of `upd` wins over the same key of `base`.  (Key enumeration
order of the JS object is not observed by the application logic.) -/
def spread (base upd : CellRow) : CellRow := upd ++ base

inductive ColType where
  | text
  | number
  | date
  | boolean
deriving DecidableEq

/-- A column (`Column` in types). -/
structure Column where
  id : String
  label : String
  type : ColType
deriving DecidableEq

/-! ### Voice Command Interpreter application (`handleVoiceUpdate` in App)

The table's row array is embedded as `List (Option CellRow)`: a `none`
entry is a JS sparse-array hole (an `undefined` slot, which only
`handleGuidedValue` can create by writing past the end). -/

inductive VoiceAction where
  | update
  | append
  | delete
  | unknown
deriving DecidableEq

/-- One entry of `VoiceUpdateResult.rowUpdates`; `rowIndex` is an `Int`
because `-1` means "new row". -/
structure RowUpdate where
  rowIndex : Int
  updates : CellRow
deriving DecidableEq

/-- The body of the `result.rowUpdates.forEach` loop in
`handleVoiceUpdate`: append on `rowIndex === -1` or `action === append`,
merge when `0 <= rowIndex < newRows.length`, otherwise do nothing. -/
def applyOneUpdate (action : VoiceAction) (rows : List (Option CellRow))
    (u : RowUpdate) : List (Option CellRow) :=
  if u.rowIndex = -1 ∨ action = .append then rows ++ [some u.updates]
  else if 0 ≤ u.rowIndex ∧ u.rowIndex < (rows.length : Int) then
    rows.set u.rowIndex.toNat
      (some (spread ((rows.getD u.rowIndex.toNat none).getD []) u.updates))
  else rows

/-- `handleVoiceUpdate` of App restricted to its row mutation: the
`forEach` over `result.rowUpdates` threading the evolving `newRows`. -/
def handleVoiceUpdate (action : VoiceAction) (rows : List (Option CellRow))
    (rowUpdates : List RowUpdate) : List (Option CellRow) :=
  rowUpdates.foldl (applyOneUpdate action) rows

/-! ### Guided session writes (`handleGuidedValue` in App) -/

/-- The fresh row built when a guided write targets a missing row:
every current column id mapped to the empty string. -/
def freshRow (columns : List Column) : CellRow :=
  columns.map (fun c => (c.id, Val.vStr ""))

/-- JS `newRows[i] = c` on an array embedded as a list: in-range
assignment replaces, past-the-end assignment extends the array with
holes up to index `i`. -/
def setPad (rows : List (Option CellRow)) (i : Nat) (c : CellRow) :
    List (Option CellRow) :=
  if i < rows.length then rows.set i (some c)
  else rows ++ List.replicate (i - rows.length) none ++ [some c]

/-- `handleGuidedValue` of App restricted to its row mutation: if there
is no row object at `rowIndex` (out of range, or a hole), first place a
fresh all-empty row there, then store the value under `colId` by
spreading. -/
def handleGuidedValue (columns : List Column) (rows : List (Option CellRow))
    (rowIndex : Nat) (colId : String) (val : String) : List (Option CellRow) :=
  let base :=
    match rows.getD rowIndex none with
    | none => freshRow columns
    | some c => c
  setPad rows rowIndex (spread base [(colId, Val.vStr val)])

/-! ### CSV import (`parseCSV` in fileService) -/

/-- JS `String.prototype.split` with a single-character separator. -/
def splitCh (sep : Char) : List Char → List (List Char)
  | [] => [[]]
  | c :: rest =>
      let r := splitCh sep rest
      if c = sep then [] :: r
      else
        match r with
        | [] => [[c]]
        | h :: t => (c :: h) :: t

/-- Remove the single trailing carriage return a `\r\n` line ending
leaves behind after splitting on `\n` (together with `splitCh '\n'`
this is the split on the pattern `\r\n|\n`). -/
def dropCR (l : List Char) : List Char :=
  match l.getLast? with
  | some '\r' => l.dropLast
  | _ => l

/-- `content.split` on line breaks followed by the blank-line filter of
`parseCSV`. -/
def csvLines (content : String) : List (List Char) :=
  ((splitCh '\n' content.toList).map dropCR).filter (fun l => trimList l ≠ [])

/-- JS `replace` with the pattern "leading quote or trailing quote"
and global flag: strip one double quote from each end. -/
def stripQuotes (l : List Char) : List Char :=
  let l1 := match l with
    | '"' :: rest => rest
    | _ => l
  match l1.getLast? with
  | some '"' => l1.dropLast
  | _ => l1

/-- `v.trim().replace(...)` applied to one header or cell. -/
def cleanField (l : List Char) : List Char := stripQuotes (trimList l)

/-- The trimmed, quote-stripped fields of one CSV line. -/
def csvValues (line : List Char) : List (List Char) :=
  (splitCh ',' line).map cleanField

/-- Leading digit run has no superfluous leading zero. -/
def noLeadZero (ds : List Char) : Bool :=
  match ds with
  | [] => false
  | [_] => true
  | c :: _ :: _ => c ≠ '0'

/-- Admissible remainder after the integer part: nothing, or a dot
followed by digits not ending in zero. -/
def fracOk (l : List Char) : Bool :=
  match l with
  | [] => true
  | '.' :: fs => fs ≠ [] && fs.all Char.isDigit && fs.getLast? ≠ some '0'
  | _ => false

/-- Unsigned canonical decimal numeral. -/
def canonicalBody (l : List Char) : Bool :=
  let ds := l.takeWhile Char.isDigit
  ds ≠ [] && noLeadZero ds && fracOk (l.dropWhile Char.isDigit)

/-- The numeric-cell test of `parseCSV`:
`!isNaN(numVal) && isFinite(numVal) && String(numVal) === val` — the
string is exactly the canonical (non-exponential) decimal rendering of
the finite number it parses to.  `"-0"` is excluded because JS renders
negative zero as `"0"`.  The model covers the decimal strings whose
value JS represents exactly (the range the application's data lives
in); float rounding of extreme literals is outside the embedding. -/
def isCanonicalNum (l : List Char) : Bool :=
  match l with
  | '-' :: rest => canonicalBody rest && rest ≠ ['0']
  | _ => canonicalBody l

/-- One pass of the `columns.forEach` cell loop over a data line: the
per-column "has been seen numeric" flags, each OR-ed with the numeric
test of this line's field (`values[idx] || ""` read as the empty field
when missing). -/
def upFlags : List Bool → List (List Char) → List Bool
  | [], _ => []
  | b :: bs, [] => (b || isCanonicalNum []) :: upFlags bs []
  | b :: bs, v :: vs => (b || isCanonicalNum v) :: upFlags bs vs

/-- The header-derived columns of `parseCSV`, before type inference:
ids `col_0, col_1, ...` in header order, default type `text`. -/
def mkColumns : Nat → List (List Char) → List Column
  | _, [] => []
  | idx, h :: rest =>
      { id := "col_" ++ toString idx,
        label := if h = [] then "Column " ++ toString (idx + 1) else String.mk h,
        type := .text } :: mkColumns (idx + 1) rest

/-- The column list produced by `parseCSV` (the claims concern the
columns: deterministic ids and the inferred types; `none` models the
"Empty file" throw).  The in-place `col.type = 'number'` upgrades
performed while scanning the data rows are threaded as per-column
flags. -/
def parseCSVColumns (content : String) : Option (List Column) :=
  match csvLines content with
  | [] => none
  | headerLine :: dataLines =>
      let headers := csvValues headerLine
      let base := mkColumns 0 headers
      let flags := dataLines.foldl (fun fl line => upFlags fl (csvValues line))
        (headers.map (fun _ => false))
      some ((base.zip flags).map (fun p =>
        { p.1 with type := if p.2 then ColType.number else ColType.text }))

/-! ### Specification-side definition for comparison -/

/-- The number normalization as the specification words it: replace the
comma decimal separators (all commas) with periods, then extract the
first signed-decimal numeric substring, falling back to the text
unchanged.  Stated from the spec's words for comparison with
`handleResult`, whose `replace(',', '.')` replaces only the first
comma. -/
def specNumberValue (clean : List Char) : List Char :=
  match findNum (clean.map fun c => if c = ',' then '.' else c) with
  | some m => m
  | none => clean

/-! ### Concrete fixtures used by the witnesses -/

def sampleNumberStep : WorkflowStep :=
  { id := "s1", instruction := "Enter quantity", targetRowIndex := 0,
    targetColumnId := "qty", expectedType := .number }

def sampleTextStep : WorkflowStep :=
  { id := "s2", instruction := "Enter note", targetRowIndex := 1,
    targetColumnId := "note", expectedType := .text }

def sampleStepAtRow (n : Nat) : WorkflowStep :=
  { id := toString n, instruction := "step " ++ toString n,
    targetRowIndex := n, targetColumnId := "qty", expectedType := .number }

def defaultColumn : Column := { id := "", label := "", type := .text }

def sampleColumns : List Column :=
  [{ id := "c0", label := "Qty", type := .number },
   { id := "c1", label := "Note", type := .text }]

/-! ## Helper lemmas -/

theorem getD_set_self {α : Type _} (l : List α) (i : Nat) (a d : α)
    (h : i < l.length) : (l.set i a).getD i d = a := by
  induction l generalizing i with
  | nil => simp at h
  | cons x xs ih =>
    cases i with
    | zero => rfl
    | succ j => simpa using ih j (by simpa using h)

theorem getD_set_ne {α : Type _} (l : List α) (i j : Nat) (a d : α)
    (h : j ≠ i) : (l.set i a).getD j d = l.getD j d := by
  induction l generalizing i j with
  | nil => rfl
  | cons x xs ih =>
    cases i with
    | zero =>
      cases j with
      | zero => exact absurd rfl h
      | succ k => rfl
    | succ m =>
      cases j with
      | zero => rfl
      | succ k => simpa using ih m k (fun hkm => h (by rw [hkm]))

/-! ## Claim C2: stop-word precedence in the guided session -/

/-- C2: for every recognized final utterance whose lower-cased, trimmed
text contains a stop keyword of the session's language, `handleResult`
takes the termination branch (`onClose()`, i.e. the session finishes)
and emits no table-write command — regardless of any numeric value or
skip keyword also present, since stop-words are checked before
skip-words and before value handling. -/
theorem claim2_stop_precedence (lang : Lang) (step : WorkflowStep) (text : String)
    (hstop : ((stopWords lang).any fun w => hasSub (cleanList text) w.toList) = true) :
    handleResult lang step text = .stop := by
  by_cases h1 : cleanList text = []
  · rw [h1] at hstop
    exact absurd hstop (by cases lang <;> decide)
  · simp only [handleResult]
    rw [if_neg h1, if_pos hstop]

theorem claim2_stop_precedence_witness :
    handleResult .en sampleNumberStep "stop 42" = .stop :=
  claim2_stop_precedence .en sampleNumberStep "stop 42" (by decide)

/-! ## Claim C3: numeric value normalization (corrected) -/

/-- C3 counterexample: on the utterance `"a, 12,5"` (English session,
number-typed step) the code replaces only the *first* comma, so the
emitted write value is `"12"`, while the procedure the claim describes
— replace the comma decimal separators with periods, then extract the
first signed-decimal numeric substring — yields `"12.5"`. -/
theorem claim3_counterexample :
    handleResult .en sampleNumberStep "a, 12,5" = .write 0 "qty" "12" ∧
    specNumberValue (cleanList "a, 12,5") = "12.5".toList ∧
    ("12" : String) ≠ "12.5" := by decide

/-- C3 amended: for every value utterance (non-empty, no stop or skip
keyword) processed while the current step's `expectedType` is `number`,
the emitted write value is obtained by replacing the *first* comma with
a period and extracting the first signed-decimal numeric substring; if
no numeric substring is found the write value is the trimmed,
lower-cased text unchanged — and in every case a write outcome is
produced, so the session still advances. -/
theorem claim3_number_normalization (lang : Lang) (step : WorkflowStep) (text : String)
    (htype : step.expectedType = .number)
    (hne : cleanList text ≠ [])
    (hstop : ((stopWords lang).any fun w => hasSub (cleanList text) w.toList) = false)
    (hskip : ((nextWords lang).any fun w => hasSub (cleanList text) w.toList) = false) :
    handleResult lang step text =
      .write step.targetRowIndex step.targetColumnId
        (String.mk ((findNum (replaceFirstComma (cleanList text))).getD (cleanList text))) := by
  simp only [handleResult]
  rw [if_neg hne, if_neg (by rw [hstop]; simp), if_neg (by rw [hskip]; simp), htype,
    if_pos rfl]
  cases h : findNum (replaceFirstComma (cleanList text)) <;> simp [h]

theorem claim3_number_normalization_witness :
    handleResult .en sampleNumberStep "12,5" = .write 0 "qty" "12.5" ∧
    handleResult .ru sampleNumberStep "около двенадцати" =
      .write 0 "qty" "около двенадцати" :=
  ⟨(claim3_number_normalization .en sampleNumberStep "12,5" (by decide) (by decide)
      (by decide) (by decide)).trans (by decide),
   (claim3_number_normalization .ru sampleNumberStep "около двенадцати" (by decide)
      (by decide) (by decide) (by decide)).trans (by decide)⟩

/-! ## Claim C10: session writes are trimmed and lower-cased -/

/-- C10: every value the guided session writes is derived from the
trimmed, lower-cased utterance; for a text-typed step — and for a
number-typed step where no numeric substring is found — the stored
value is exactly the utterance after trimming and lower-casing, so the
original casing and surrounding whitespace are never preserved. -/
theorem claim10_write_value_clean (lang : Lang) (step : WorkflowStep) (text : String)
    (r : Nat) (c v : String)
    (hw : handleResult lang step text = .write r c v) :
    (step.expectedType = .text → v = String.mk (cleanList text)) ∧
    (findNum (replaceFirstComma (cleanList text)) = none →
      v = String.mk (cleanList text)) := by
  simp only [handleResult] at hw
  by_cases h1 : cleanList text = []
  · rw [if_pos h1] at hw
    exact absurd hw (by simp)
  rw [if_neg h1] at hw
  by_cases h2 : ((stopWords lang).any fun w => hasSub (cleanList text) w.toList) = true
  · rw [if_pos h2] at hw
    exact absurd hw (by simp)
  rw [if_neg h2] at hw
  by_cases h3 : ((nextWords lang).any fun w => hasSub (cleanList text) w.toList) = true
  · rw [if_pos h3] at hw
    exact absurd hw (by simp)
  rw [if_neg h3] at hw
  injection hw with hr hc hv
  constructor
  · intro ht
    rw [← hv, ht]
    simp
  · intro hn
    rw [← hv]
    by_cases he : step.expectedType = .number
    · rw [he]
      simp [hn]
    · rw [if_neg he]

theorem claim10_write_value_clean_witness :
    ("hello world" : String) = String.mk (cleanList "  Hello WORLD  ") :=
  (claim10_write_value_clean .en sampleTextStep "  Hello WORLD  " 1 "note"
      "hello world" (by decide)).1 (by decide)

/-! ## Claim C7: 1-based row edit conversion -/

/-- C7: the row number entered in the step editor is interpreted as
1-based and converted by `saveStepEdit` to the internal 0-based
`targetRowIndex`, floored at 0: input `"1"` gives 0, input `"0"` gives
0, and non-numeric input (NaN `parseInt`) gives 0. -/
theorem claim7_row_edit (steps : List WorkflowStep) (index : Nat)
    (instr colId : String) (hidx : index < steps.length) :
    ((saveStepEdit steps index instr "1" colId).getD index defaultStep).targetRowIndex = 0 ∧
    ((saveStepEdit steps index instr "0" colId).getD index defaultStep).targetRowIndex = 0 ∧
    ∀ s : String, parseIntJS s = none →
      ((saveStepEdit steps index instr s colId).getD index defaultStep).targetRowIndex = 0 := by
  have key : ∀ s : String,
      (saveStepEdit steps index instr s colId).getD index defaultStep =
        { steps.getD index defaultStep with
            instruction := instr,
            targetRowIndex := editRowToIndex s,
            targetColumnId := colId } :=
    fun s => getD_set_self _ _ _ _ hidx
  refine ⟨?_, ?_, ?_⟩
  · rw [key]
    show editRowToIndex "1" = 0
    decide
  · rw [key]
    show editRowToIndex "0" = 0
    decide
  · intro s hn
    rw [key]
    show editRowToIndex s = 0
    simp [editRowToIndex, hn]

theorem claim7_row_edit_witness :
    ((saveStepEdit [sampleTextStep] 0 "i" "abc" "c").getD 0 defaultStep).targetRowIndex = 0 ∧
    ((saveStepEdit [sampleTextStep] 0 "i" "1" "c").getD 0 defaultStep).targetRowIndex = 0 := by
  have base := claim7_row_edit [sampleTextStep] 0 "i" "c" (by decide)
  exact ⟨base.2.2 "abc" (by decide), base.1⟩

/-! ## Claim C1: duplicate-selected smart offset -/

/-- C1: for every non-empty selection of valid step positions,
`duplicateSelected` appends one duplicate per selected step — walking
the selection in ascending position order, i.e. the selected steps'
original relative order — to the end of the list, each duplicate
keeping the original's fields except a fresh id and a `targetRowIndex`
shifted by `offset = (max selected row - min selected row) + 1`; the
JS `|| 1` floor is dead, the offset is always at least 1, and when the
selected rows coincide it is exactly 1. -/
theorem claim1_duplicate_offset (steps : List WorkflowStep) (sel : List Nat)
    (newId : Nat → String) (hne : sel ≠ []) (hnodup : sel.Nodup)
    (hvalid : ∀ i ∈ sel, i < steps.length) :
    let indices := sel.insertionSort (· ≤ ·)
    let rows := indices.map fun i => (steps.getD i defaultStep).targetRowIndex
    let offset := (listMaxD rows - listMinD rows) + 1
    duplicateSelected steps sel newId =
      steps ++ indices.map (fun i =>
        { steps.getD i defaultStep with
            id := newId i,
            targetRowIndex := (steps.getD i defaultStep).targetRowIndex + offset }) ∧
    List.Sorted (· ≤ ·) indices ∧
    indices.Perm sel ∧
    1 ≤ offset ∧
    (listMinD rows = listMaxD rows → offset = 1) := by
  intro indices rows offset
  have hoff : ∀ a b : Nat, (if (a - b) + 1 = 0 then 1 else (a - b) + 1) = (a - b) + 1 :=
    fun a b => if_neg (Nat.succ_ne_zero _)
  refine ⟨?_, List.sorted_insertionSort _ _, List.perm_insertionSort _ _,
      Nat.le_add_left 1 _, fun h => by
        show listMaxD rows - listMinD rows + 1 = 1
        omega⟩
  unfold duplicateSelected
  rw [if_neg hne]
  simp only [List.map_map, Function.comp, hoff]
  rfl

theorem claim1_duplicate_offset_witness :
    duplicateSelected [sampleStepAtRow 2, sampleStepAtRow 5, sampleStepAtRow 9]
      [2, 0] (fun i => toString i) =
    [sampleStepAtRow 2, sampleStepAtRow 5, sampleStepAtRow 9,
     { sampleStepAtRow 2 with id := "0", targetRowIndex := 10 },
     { sampleStepAtRow 9 with id := "2", targetRowIndex := 17 }] :=
  (claim1_duplicate_offset [sampleStepAtRow 2, sampleStepAtRow 5, sampleStepAtRow 9]
    [2, 0] (fun i => toString i) (by decide) (by decide) (by decide)).1.trans (by decide)

/-! ## Claim C6: reorder round-trip -/

theorem getD_insertIdx_self {α : Type _} (l : List α) (i : Nat) (a d : α)
    (h : i ≤ l.length) : (l.insertIdx i a).getD i d = a := by
  induction l generalizing i with
  | nil =>
    cases i with
    | zero => rfl
    | succ j => simp at h
  | cons x xs ih =>
    cases i with
    | zero => rfl
    | succ j => simpa [List.insertIdx_succ_cons] using ih j (by simpa using h)

theorem insertIdx_eraseIdx_getD {α : Type _} (l : List α) (i : Nat) (d : α)
    (h : i < l.length) : (l.eraseIdx i).insertIdx i (l.getD i d) = l := by
  induction l generalizing i with
  | nil => simp at h
  | cons x xs ih =>
    cases i with
    | zero => rfl
    | succ j =>
      simp only [List.eraseIdx_cons_succ, List.getD_cons_succ, List.insertIdx_succ_cons]
      exact congrArg (x :: ·) (ih j (by simpa using h))

/-- C6: for every pipeline and valid positions `i, j`, dragging the
step at `i` to `j` (the `onDrop` splice pair) and then dragging the
step now at `j` back to `i` restores the original step sequence. -/
theorem claim6_reorder_roundtrip (steps : List WorkflowStep) (i j : Nat)
    (hi : i < steps.length) (hj : j < steps.length) :
    reorderStep (reorderStep steps i j) j i = steps := by
  have hlen : (steps.eraseIdx i).length = steps.length - 1 := by
    rw [List.length_eraseIdx]
    simp [hi]
  have hj1 : j ≤ (steps.eraseIdx i).length := by omega
  have hi1 : i ≤ (steps.eraseIdx i).length := by omega
  simp only [reorderStep]
  rw [Nat.min_eq_left hj1, List.eraseIdx_insertIdx,
    getD_insertIdx_self _ _ _ _ hj1, Nat.min_eq_left hi1]
  exact insertIdx_eraseIdx_getD steps i defaultStep hi

theorem claim6_reorder_roundtrip_witness :
    reorderStep (reorderStep
      [sampleStepAtRow 0, sampleStepAtRow 1, sampleStepAtRow 2] 0 2) 2 0 =
      [sampleStepAtRow 0, sampleStepAtRow 1, sampleStepAtRow 2] :=
  claim6_reorder_roundtrip [sampleStepAtRow 0, sampleStepAtRow 1, sampleStepAtRow 2]
    0 2 (by decide) (by decide)

/-! ## Row and padding helper lemmas -/

theorem cellGet_append (a b : CellRow) (k : String) :
    cellGet (a ++ b) k = (cellGet a k).or (cellGet b k) := by
  induction a with
  | nil => rfl
  | cons p rest ih =>
    obtain ⟨k2, v⟩ := p
    by_cases h : k2 = k <;> simp [cellGet, h, ih]

theorem cellGet_freshRow (columns : List Column) (col : Column) (hmem : col ∈ columns) :
    cellGet (freshRow columns) col.id = some (Val.vStr "") := by
  induction columns with
  | nil => cases hmem
  | cons c rest ih =>
    simp only [freshRow, List.map_cons, cellGet]
    by_cases h : c.id = col.id
    · simp [h]
    · cases hmem with
      | head => exact absurd rfl h
      | tail _ hm => simpa [h] using ih hm

theorem getD_of_le {α : Type _} (l : List α) (k : Nat) (d : α)
    (h : l.length ≤ k) : l.getD k d = d := by
  induction l generalizing k with
  | nil => cases k <;> rfl
  | cons x xs ih =>
    cases k with
    | zero => simp at h
    | succ m => simpa using ih m (by simpa using h)

theorem getD_append_right_own {α : Type _} (l1 l2 : List α) (k : Nat) (d : α) :
    (l1 ++ l2).getD (l1.length + k) d = l2.getD k d := by
  induction l1 with
  | nil => simp
  | cons x xs ih =>
    show (x :: (xs ++ l2)).getD (xs.length + 1 + k) d = l2.getD k d
    rw [Nat.add_right_comm xs.length 1 k]
    simpa using ih

theorem getD_append_left_own {α : Type _} (l1 l2 : List α) (k : Nat) (d : α)
    (h : k < l1.length) : (l1 ++ l2).getD k d = l1.getD k d := by
  induction l1 generalizing k with
  | nil => simp at h
  | cons x xs ih =>
    cases k with
    | zero => rfl
    | succ m => simpa using ih m (by simpa using h)

theorem rep_pad_getD (c : CellRow) (m t : Nat) (h : t ≠ m) :
    ((List.replicate m (none : Option CellRow)) ++ [some c]).getD t none = none := by
  induction m generalizing t with
  | zero =>
    cases t with
    | zero => exact absurd rfl h
    | succ s => cases s <;> rfl
  | succ m ih =>
    cases t with
    | zero => rfl
    | succ s =>
      show ((List.replicate m (none : Option CellRow)) ++ [some c]).getD s none = none
      exact ih s (fun hs => h (by rw [hs]))

theorem rep_pad_getD_self (c : CellRow) (m : Nat) :
    ((List.replicate m (none : Option CellRow)) ++ [some c]).getD m none = some c := by
  induction m with
  | zero => rfl
  | succ m ih =>
    show ((List.replicate m (none : Option CellRow)) ++ [some c]).getD m none = some c
    exact ih

theorem length_setPad (rows : List (Option CellRow)) (i : Nat) (c : CellRow) :
    (setPad rows i c).length = if i < rows.length then rows.length else i + 1 := by
  by_cases h : i < rows.length
  · simp [setPad, h]
  · simp only [setPad, if_neg h, List.append_assoc, List.length_append,
      List.length_replicate, List.length_cons, List.length_nil]
    omega

theorem getD_setPad_self (rows : List (Option CellRow)) (i : Nat) (c : CellRow) :
    (setPad rows i c).getD i none = some c := by
  by_cases h : i < rows.length
  · simp only [setPad, if_pos h]
    exact getD_set_self _ _ _ _ h
  · simp only [setPad, if_neg h]
    rw [List.append_assoc]
    nth_rewrite 2 [(by omega : i = rows.length + (i - rows.length))]
    rw [getD_append_right_own]
    exact rep_pad_getD_self c (i - rows.length)

theorem getD_setPad_ne (rows : List (Option CellRow)) (i j : Nat) (c : CellRow)
    (h : j ≠ i) : (setPad rows i c).getD j none = rows.getD j none := by
  by_cases hi : i < rows.length
  · simp only [setPad, if_pos hi]
    exact getD_set_ne _ _ _ _ _ h
  · simp only [setPad, if_neg hi]
    rw [List.append_assoc]
    by_cases hj : j < rows.length
    · exact getD_append_left_own _ _ _ _ hj
    · rw [(by omega : j = rows.length + (j - rows.length)), getD_append_right_own,
        getD_of_le rows _ none (by omega), rep_pad_getD c _ _ (by omega)]

/-! ## Claim C5: append semantics of voice updates -/

/-- C5: for a Voice Command Interpreter result with `action = append`,
every `rowUpdates` entry appends a new row built from its updates —
whatever its `rowIndex`, including a valid existing index; and for any
action, an entry with `rowIndex = -1` appends a new row. -/
theorem claim5_append_semantics (action : VoiceAction) (rows : List (Option CellRow))
    (rowUpdates : List RowUpdate) :
    (action = .append →
      handleVoiceUpdate action rows rowUpdates =
        rows ++ rowUpdates.map fun u => some u.updates) ∧
    (∀ u : RowUpdate, u.rowIndex = -1 →
      applyOneUpdate action rows u = rows ++ [some u.updates]) := by
  constructor
  · rintro rfl
    induction rowUpdates generalizing rows with
    | nil => simp [handleVoiceUpdate]
    | cons u rest ih =>
      have happ : applyOneUpdate .append rows u = rows ++ [some u.updates] := by
        unfold applyOneUpdate
        rw [if_pos (Or.inr rfl)]
      calc handleVoiceUpdate .append rows (u :: rest)
          = handleVoiceUpdate .append (applyOneUpdate .append rows u) rest := rfl
        _ = (rows ++ [some u.updates]) ++ rest.map (fun u => some u.updates) := by
            rw [happ, ih]
        _ = rows ++ (u :: rest).map (fun u => some u.updates) := by simp
  · intro u hu
    unfold applyOneUpdate
    rw [if_pos (Or.inl hu)]

theorem claim5_append_semantics_witness :
    handleVoiceUpdate .append [some [("a", Val.vStr "1")]]
      [{ rowIndex := 0, updates := [("a", Val.vStr "2")] }] =
      [some [("a", Val.vStr "1")], some [("a", Val.vStr "2")]] :=
  ((claim5_append_semantics .append [some [("a", Val.vStr "1")]]
    [{ rowIndex := 0, updates := [("a", Val.vStr "2")] }]).1 rfl).trans (by decide)

/-! ## Claim C8: in-range merge, out-of-range drop -/

/-- C8: for a voice result whose action is not `append`, an entry with
`0 ≤ rowIndex < rows.length` merges its updates into the existing row
at that index — an updated key takes the update's value, every other
existing field is preserved — and leaves all other rows and the row
count unchanged; an entry with `rowIndex ≥ rows.length` is silently
dropped (identity on the rows), and the batch keeps folding over the
remaining entries either way. -/
theorem claim8_merge_and_drop (action : VoiceAction) (hact : action ≠ .append)
    (rows : List (Option CellRow)) (u : RowUpdate) :
    (0 ≤ u.rowIndex → u.rowIndex < (rows.length : Int) →
      (applyOneUpdate action rows u).length = rows.length ∧
      (∀ j, j ≠ u.rowIndex.toNat →
        (applyOneUpdate action rows u).getD j none = rows.getD j none) ∧
      ∀ c0, rows.getD u.rowIndex.toNat none = some c0 →
        ∃ c, (applyOneUpdate action rows u).getD u.rowIndex.toNat none = some c ∧
          ∀ k, cellGet c k = (cellGet u.updates k).or (cellGet c0 k)) ∧
    ((rows.length : Int) ≤ u.rowIndex → applyOneUpdate action rows u = rows) ∧
    (∀ (r0 : List (Option CellRow)) (rest : List RowUpdate),
      handleVoiceUpdate action r0 (u :: rest) =
        handleVoiceUpdate action (applyOneUpdate action r0 u) rest) := by
  refine ⟨?_, ?_, fun r0 rest => rfl⟩
  · intro hge hlt
    have hne1 : ¬(u.rowIndex = -1 ∨ action = .append) := by
      rintro (h | h)
      · omega
      · exact hact h
    have happ : applyOneUpdate action rows u =
        rows.set u.rowIndex.toNat
          (some (spread ((rows.getD u.rowIndex.toNat none).getD []) u.updates)) := by
      unfold applyOneUpdate
      rw [if_neg hne1, if_pos ⟨hge, hlt⟩]
    have hidx : u.rowIndex.toNat < rows.length := by omega
    rw [happ]
    refine ⟨by simp, fun j hj => getD_set_ne _ _ _ _ _ hj, fun c0 hc0 => ?_⟩
    refine ⟨_, getD_set_self _ _ _ _ hidx, fun k => ?_⟩
    rw [hc0]
    show cellGet (u.updates ++ c0) k = _
    exact cellGet_append _ _ _
  · intro hge2
    have hne1 : ¬(u.rowIndex = -1 ∨ action = .append) := by
      rintro (h | h)
      · omega
      · exact hact h
    unfold applyOneUpdate
    rw [if_neg hne1, if_neg (by rintro ⟨_, h2⟩; omega)]

theorem claim8_merge_and_drop_witness :
    applyOneUpdate .update [some [("a", Val.vStr "1")]]
      { rowIndex := 5, updates := [("b", Val.vStr "2")] } =
      [some [("a", Val.vStr "1")]] :=
  (claim8_merge_and_drop .update (by decide) [some [("a", Val.vStr "1")]]
    { rowIndex := 5, updates := [("b", Val.vStr "2")] }).2.1 (by decide)

/-! ## Claim C9: guided writes to missing rows -/

/-- C9: a guided-session write `(rowIndex, colId, val)` never fails
and is never dropped: the result keeps at least the old rows, has a row
object at `rowIndex`, and leaves every other position unchanged; when
no row object existed at `rowIndex`, the row placed there is the fresh
all-empty row (every current column id mapped to `""`) with `val`
stored under `colId`; when a row object existed, `val` is merged into
it with every other field unchanged. -/
theorem claim9_guided_write (columns : List Column) (rows : List (Option CellRow))
    (rowIndex : Nat) (colId val : String) :
    let res := handleGuidedValue columns rows rowIndex colId val
    rows.length ≤ res.length ∧
    rowIndex < res.length ∧
    (∀ j, j ≠ rowIndex → res.getD j none = rows.getD j none) ∧
    (rows.getD rowIndex none = none →
      ∃ c, res.getD rowIndex none = some c ∧
        cellGet c colId = some (Val.vStr val) ∧
        ∀ col ∈ columns, col.id ≠ colId → cellGet c col.id = some (Val.vStr "")) ∧
    (∀ c0, rows.getD rowIndex none = some c0 →
      ∃ c, res.getD rowIndex none = some c ∧
        cellGet c colId = some (Val.vStr val) ∧
        ∀ k, k ≠ colId → cellGet c k = cellGet c0 k) := by
  intro res
  have hlook : ∀ (base : CellRow) (k : String),
      cellGet (spread base [(colId, Val.vStr val)]) k =
        (if colId = k then some (Val.vStr val) else none).or (cellGet base k) := by
    intro base k
    show cellGet ([(colId, Val.vStr val)] ++ base) k = _
    rw [cellGet_append]
    rfl
  refine ⟨?_, ?_, ?_, ?_, ?_⟩
  · show rows.length ≤ (setPad rows rowIndex _).length
    rw [length_setPad]
    by_cases h : rowIndex < rows.length <;> simp [h] <;> omega
  · show rowIndex < (setPad rows rowIndex _).length
    rw [length_setPad]
    by_cases h : rowIndex < rows.length <;> simp [h]
  · intro j hj
    exact getD_setPad_ne _ _ _ _ hj
  · intro h0
    have hbase : res = setPad rows rowIndex (spread (freshRow columns) [(colId, Val.vStr val)]) := by
      show setPad rows rowIndex _ = _
      rw [h0]
    refine ⟨spread (freshRow columns) [(colId, Val.vStr val)], ?_, ?_, ?_⟩
    · rw [hbase]
      exact getD_setPad_self _ _ _
    · rw [hlook]
      simp
    · intro col hcol hne
      rw [hlook, if_neg (fun he => hne he.symm)]
      simpa using cellGet_freshRow columns col hcol
  · intro c0 hc0
    have hbase : res = setPad rows rowIndex (spread c0 [(colId, Val.vStr val)]) := by
      show setPad rows rowIndex _ = _
      rw [hc0]
    refine ⟨spread c0 [(colId, Val.vStr val)], ?_, ?_, ?_⟩
    · rw [hbase]
      exact getD_setPad_self _ _ _
    · rw [hlook]
      simp
    · intro k hk
      rw [hlook, if_neg (fun he => hk he.symm)]
      rfl

theorem claim9_guided_write_witness :
    ∃ c, (handleGuidedValue sampleColumns [] 2 "c0" "5").getD 2 none = some c ∧
      cellGet c "c0" = some (Val.vStr "5") ∧
      ∀ col ∈ sampleColumns, col.id ≠ "c0" →
        cellGet c col.id = some (Val.vStr "") :=
  (claim9_guided_write sampleColumns [] 2 "c0" "5").2.2.2.1 rfl

/-! ## Claim C4: CSV column type inference (corrected) -/

theorem upFlags_length (flags : List Bool) (vals : List (List Char)) :
    (upFlags flags vals).length = flags.length := by
  induction flags generalizing vals with
  | nil => rfl
  | cons b bs ih =>
    cases vals with
    | nil => simpa [upFlags] using ih []
    | cons v vs => simpa [upFlags] using ih vs

theorem upFlags_getD (flags : List Bool) (vals : List (List Char)) (j : Nat)
    (hj : j < flags.length) :
    (upFlags flags vals).getD j false =
      (flags.getD j false || isCanonicalNum (vals.getD j [])) := by
  induction flags generalizing vals j with
  | nil => simp at hj
  | cons b bs ih =>
    cases vals with
    | nil =>
      cases j with
      | zero => rfl
      | succ m => simpa [upFlags] using ih [] m (by simpa using hj)
    | cons v vs =>
      cases j with
      | zero => rfl
      | succ m => simpa [upFlags] using ih vs m (by simpa using hj)

theorem foldl_upFlags_getD (lines : List (List Char)) (flags : List Bool) (j : Nat)
    (hj : j < flags.length) :
    (lines.foldl (fun fl line => upFlags fl (csvValues line)) flags).getD j false =
      (flags.getD j false ||
        lines.any fun line => isCanonicalNum ((csvValues line).getD j [])) := by
  induction lines generalizing flags with
  | nil => simp
  | cons l ls ih =>
    have hlen : j < (upFlags flags (csvValues l)).length := by
      rw [upFlags_length]; exact hj
    calc (List.foldl (fun fl line => upFlags fl (csvValues line))
            (upFlags flags (csvValues l)) ls).getD j false
        = ((upFlags flags (csvValues l)).getD j false ||
            ls.any fun line => isCanonicalNum ((csvValues line).getD j [])) := ih _ hlen
      _ = _ := by
          rw [upFlags_getD flags (csvValues l) j hj]
          simp [Bool.or_assoc]

theorem foldl_upFlags_length (lines : List (List Char)) (flags : List Bool) :
    (lines.foldl (fun fl line => upFlags fl (csvValues line)) flags).length =
      flags.length := by
  induction lines generalizing flags with
  | nil => rfl
  | cons l ls ih => simpa [upFlags_length] using ih (upFlags flags (csvValues l))

theorem mkColumns_length (k : Nat) (hs : List (List Char)) :
    (mkColumns k hs).length = hs.length := by
  induction hs generalizing k with
  | nil => rfl
  | cons h rest ih => simpa [mkColumns] using ih (k + 1)

theorem mkColumns_getD_id (k : Nat) (hs : List (List Char)) (j : Nat)
    (hj : j < hs.length) :
    ((mkColumns k hs).getD j defaultColumn).id = "col_" ++ toString (k + j) := by
  induction hs generalizing k j with
  | nil => simp at hj
  | cons h rest ih =>
    cases j with
    | zero => rfl
    | succ m =>
      rw [(by omega : k + (m + 1) = (k + 1) + m)]
      simpa [mkColumns] using ih (k + 1) m (by simpa using hj)

theorem zipmap_getD (base : List Column) (flags : List Bool) (j : Nat)
    (h1 : j < base.length) (h2 : j < flags.length) :
    (((base.zip flags).map fun p =>
        { p.1 with type := if p.2 then ColType.number else ColType.text }).getD
      j defaultColumn) =
      { base.getD j defaultColumn with
          type := if flags.getD j false then ColType.number else ColType.text } := by
  induction base generalizing flags j with
  | nil => simp at h1
  | cons c cs ih =>
    cases flags with
    | nil => simp at h2
    | cons f fs =>
      cases j with
      | zero => rfl
      | succ m => simpa using ih fs m (by simpa using h1) (by simpa using h2)

theorem mapconst_getD (hs : List (List Char)) (j : Nat) :
    (hs.map fun _ => false).getD j false = false := by
  induction hs generalizing j with
  | nil => rfl
  | cons h rest ih =>
    cases j with
    | zero => rfl
    | succ m => simpa using ih m

/-- C4 counterexample: on the CSV text `"h\n5\nabc"` the single column
is inferred as `number` — the first data value `"5"` upgrades the type
and the upgrade is never revisited — even though the later non-empty
value `"abc"` in the same column does not parse as a canonical number.
This refutes "`number` only if *every* non-empty value seen in that
column parses". -/
theorem claim4_counterexample :
    parseCSVColumns "h\n5\nabc" =
      some [{ id := "col_0", label := "h", type := ColType.number }] ∧
    csvLines "h\n5\nabc" = ["h".toList, "5".toList, "abc".toList] ∧
    (csvValues "abc".toList).getD 0 [] = "abc".toList ∧
    isCanonicalNum "abc".toList = false ∧
    "abc".toList ≠ [] := by decide

/-- C4 amended: for every CSV input with at least one surviving line,
the import produces columns whose ids are deterministically
`col_0, col_1, ...` in header order, and infers a column's type as
`number` if and only if *at least one* value seen in that column parses
as a canonical (non-exponential, round-trippable) number — the type is
upgraded on the first such value and never downgraded — and as `text`
otherwise. -/
theorem claim4_csv_type_inference (content : String)
    (hne : csvLines content ≠ []) :
    ∃ cols, parseCSVColumns content = some cols ∧
      cols.length = (csvValues ((csvLines content).headD [])).length ∧
      (∀ j, j < cols.length →
        (cols.getD j defaultColumn).id = "col_" ++ toString j) ∧
      (∀ j, j < cols.length →
        ((cols.getD j defaultColumn).type = ColType.number ↔
          ∃ line ∈ (csvLines content).tail,
            isCanonicalNum ((csvValues line).getD j []))) := by
  obtain ⟨hd, tl, hsplit⟩ : ∃ hd tl, csvLines content = hd :: tl := by
    cases h : csvLines content with
    | nil => exact absurd h hne
    | cons a b => exact ⟨a, b, rfl⟩
  have hp : parseCSVColumns content =
      some (((mkColumns 0 (csvValues hd)).zip
          (tl.foldl (fun fl line => upFlags fl (csvValues line))
            ((csvValues hd).map fun _ => false))).map fun p =>
        { p.1 with type := if p.2 then ColType.number else ColType.text }) := by
    unfold parseCSVColumns
    rw [hsplit]
  have hflen : (tl.foldl (fun fl line => upFlags fl (csvValues line))
      ((csvValues hd).map fun _ => false)).length = (csvValues hd).length := by
    rw [foldl_upFlags_length]
    simp
  have hblen : (mkColumns 0 (csvValues hd)).length = (csvValues hd).length :=
    mkColumns_length 0 (csvValues hd)
  have hclen : (((mkColumns 0 (csvValues hd)).zip
      (tl.foldl (fun fl line => upFlags fl (csvValues line))
        ((csvValues hd).map fun _ => false))).map fun p =>
        { p.1 with type := if p.2 then ColType.number else ColType.text }).length =
      (csvValues hd).length := by
    rw [List.length_map, List.length_zip, hblen, hflen, Nat.min_self]
  refine ⟨_, hp, ?_, ?_, ?_⟩
  · rw [hclen, hsplit]
    rfl
  · intro j hj
    rw [hclen] at hj
    rw [zipmap_getD _ _ _ (by omega) (by omega)]
    show ((mkColumns 0 (csvValues hd)).getD j defaultColumn).id = _
    rw [mkColumns_getD_id 0 (csvValues hd) j hj, Nat.zero_add]
  · intro j hj
    rw [hclen] at hj
    rw [zipmap_getD _ _ _ (by omega) (by omega)]
    show (if (tl.foldl (fun fl line => upFlags fl (csvValues line))
        ((csvValues hd).map fun _ => false)).getD j false
      then ColType.number else ColType.text) = ColType.number ↔ _
    rw [foldl_upFlags_getD tl _ j (by simpa using hj), mapconst_getD, hsplit]
    cases hany : tl.any fun line => isCanonicalNum ((csvValues line).getD j []) with
    | true =>
      simp only [Bool.false_or, hany, if_true]
      simpa using (List.any_eq_true).mp hany
    | false =>
      simp only [Bool.false_or, hany, if_false]
      constructor
      · intro h
        exact absurd h (by decide)
      · intro h
        obtain ⟨line, hmem, hcan⟩ := h
        have hcontra : (tl.any fun line =>
            isCanonicalNum ((csvValues line).getD j [])) = true :=
          List.any_eq_true.mpr ⟨line, hmem, hcan⟩
        rw [hany] at hcontra
        cases hcontra

theorem claim4_csv_type_inference_witness :
    ∃ cols, parseCSVColumns "a,b\n1,x" = some cols ∧
      cols.length = (csvValues ((csvLines "a,b\n1,x").headD [])).length ∧
      (∀ j, j < cols.length →
        (cols.getD j defaultColumn).id = "col_" ++ toString j) ∧
      (∀ j, j < cols.length →
        ((cols.getD j defaultColumn).type = ColType.number ↔
          ∃ line ∈ (csvLines "a,b\n1,x").tail,
            isCanonicalNum ((csvValues line).getD j []))) :=
  claim4_csv_type_inference "a,b\n1,x" (by decide)

end Scan
